import Mathlib

/-!
Verification of the pg-maintenance batch deletion utility.

The development shallowly embeds the functional core of the repository:

* `IsValidTableName` embeds the identifier validator of
  `internal/module/pg/pg.go`.
* `goAtoi`, `splitOnChar`, `parseParts`, `parseTableSpec`, `parseSpecs`
  embed the table-specification parsing performed inside the per-table
  loop of `cmd/main/main.go` (Go `strconv.Atoi`, `strings.Split`, and the
  branch structure of the loop body), including the fact that the `days`
  variable is declared outside the loop and is therefore carried over
  between specs.
* `Row`, `qualifying`, `selectBatch`, `execDelete`, `runLoopFuel`,
  `runTableLoop` embed the batch deletion loop: the SQL statement
  `DELETE FROM t WHERE ctid IN (SELECT ctid FROM t WHERE col < $1
  ORDER BY col [LIMIT $2])` acting on a table modelled as a list of rows
  (physical row identifier `ctid` plus an integer timestamp), iterated
  with the loop's stopping conditions.
* `buildSubquery`, `buildQuery`, `buildArgs` embed the textual SQL
  construction and the bound-parameter list.
* `Event`, `tableEvents`, `processTables`, `runMain` embed the order of
  observable actions of `main`: connect, ping, then per spec either skip,
  fatal exit, or SQL build followed by one execution per loop iteration.
* `deletedMsg`, `noMoreMsg`, `loopLogs` embed the per-iteration log
  output of the loop.
-/

namespace PgMaintenance

/-- Character predicate of the identifier validator: the loop body of
`IsValidTableName` in `internal/module/pg/pg.go` rejects a rune unless it
is an ASCII upper-case letter, lower-case letter, digit, or underscore. -/
def isTNameChar (r : Char) : Bool :=
  (('A' ≤ r && r ≤ 'Z') || ('a' ≤ r && r ≤ 'z') || ('0' ≤ r && r ≤ '9') || (r = '_'))

/-- Embeds `IsValidTableName` from `internal/module/pg/pg.go`: iterate over
the runes of the name, return false on the first rune outside the allowed
classes, return true when the loop finishes. -/
def IsValidTableName (name : String) : Bool :=
  name.toList.all isTNameChar

/-- Value of a digit character. -/
def digitVal (c : Char) : Nat := c.toNat - '0'.toNat

/-- Base-10 value of a digit string, as folded up by `strconv.Atoi`. -/
def digitsVal (cs : List Char) : Nat :=
  cs.foldl (fun a c => a * 10 + digitVal c) 0

/-- Embeds Go `strconv.Atoi` (i.e. `strconv.ParseInt(s, 10, 0)` on a 64-bit
platform): an optional sign followed by at least one decimal digit, with
the result within the 64-bit signed range; `none` models a non-nil error. -/
def goAtoi (s : String) : Option Int :=
  let cs := s.toList
  let signDigits : Int × List Char :=
    match cs with
    | '-' :: rest => (-1, rest)
    | '+' :: rest => (1, rest)
    | _ => (1, cs)
  let ds := signDigits.2
  if ds.isEmpty then none
  else if ds.all (fun c => ('0' ≤ c && c ≤ '9')) then
    let v : Int := signDigits.1 * (digitsVal ds : Int)
    if -(2 ^ 63) ≤ v ∧ v ≤ 2 ^ 63 - 1 then some v else none
  else none

/-- Splits a character list at every occurrence of the separator, keeping
empty segments; mirrors Go `strings.Split` with a one-character separator
(`strings.Split("", sep) = [""]`, `strings.Split(":", ":") = ["", ""]`). -/
def splitOnChar (sep : Char) : List Char → List (List Char)
  | [] => [[]]
  | c :: rest =>
    let r := splitOnChar sep rest
    if c = sep then [] :: r
    else
      match r with
      | [] => [[c]]
      | g :: gs => (c :: g) :: gs

/-- Embeds `strings.Split(table, ":")` from the loop body of
`cmd/main/main.go`. -/
def goSplit (s : String) : List String :=
  (splitOnChar ':' s.toList).map (fun cs => String.mk cs)

/-- Outcome of processing one table specification string in the loop body
of `cmd/main/main.go`: `skip` models `log.Println("Invalid format: ", parts)`
followed by `continue`; `fatal` models `log.Fatalf`/`log.Fatalln`;
`ok tableName timestampColumn days` models reaching the cleanup code with
those values assigned. -/
inductive ParseResult where
  | skip : ParseResult
  | fatal : String → ParseResult
  | ok : String → String → Int → ParseResult
deriving DecidableEq, Repr

/-- Fatal message prefix for an invalid table name (`log.Fatalf`). -/
def tableErrMsg : String := "Invalid table name"

/-- Fatal message prefix for an invalid timestamp column (`log.Fatalf`). -/
def columnErrMsg : String := "Invalid timestamp column name"

/-- Fatal message prefix for an unparseable days value (`log.Fatalln`). -/
def daysErrMsg : String := "Error parsing days integer value"

/-- Embeds the branch structure of the spec-parsing part of the loop body
of `cmd/main/main.go` (lines 116-152), applied to the already split
segments.  `prevDays` is the value the function-scoped `days` variable has
when the iteration starts: the one-segment branch assigns only
`timestampColumn` and leaves `days` untouched, so the previous value leaks
through.  A segment count outside 1..3 is skipped (`continue`), not fatal. -/
def parseParts (prevDays : Int) (parts : List String) : ParseResult :=
  match parts with
  | [t] =>
    if IsValidTableName t = false then .fatal tableErrMsg
    else .ok t "created_at" prevDays
  | [t, c] =>
    if IsValidTableName t = false then .fatal tableErrMsg
    else if c = "" then .ok t "created_at" 0
    else if IsValidTableName c = false then .fatal columnErrMsg
    else .ok t c 0
  | [t, c, d] =>
    if IsValidTableName t = false then .fatal tableErrMsg
    else if c = "" then
      match goAtoi d with
      | none => .fatal daysErrMsg
      | some v => .ok t "created_at" v
    else if IsValidTableName c = false then .fatal columnErrMsg
    else
      match goAtoi d with
      | none => .fatal daysErrMsg
      | some v => .ok t c v
  | _ => .skip

/-- Embeds the processing of one raw `--table` argument: split on `:`,
then run the branch structure of the loop body. -/
def parseTableSpec (prevDays : Int) (table : String) : ParseResult :=
  parseParts prevDays (goSplit table)

/-- Folds the spec parsing over the whole `--table` list the way the loop
of `main` does: the function-scoped `days` value is threaded from one
iteration to the next (initial Go zero value `0` at the first iteration),
a skipped spec leaves it unchanged, and a fatal parse stops the run. -/
def parseSpecs (prevDays : Int) : List String → Except String (List (String × String × Int))
  | [] => Except.ok []
  | t :: rest =>
    match parseTableSpec prevDays t with
    | .skip => parseSpecs prevDays rest
    | .fatal m => Except.error m
    | .ok tn tc d =>
      match parseSpecs d rest with
      | Except.error m => Except.error m
      | Except.ok l => Except.ok ((tn, tc, d) :: l)

/-- One stored row of a table: the physical row identifier (`ctid`) and the
value of the timestamp column, modelled as an integer timestamp. -/
structure Row where
  ctid : Nat
  ts : Int
deriving DecidableEq, Repr

/-- Rows matching the `WHERE col < $1` filter of the deletion subquery:
timestamp strictly below the bound cutoff. -/
def qualifying (cutoff : Int) (rows : List Row) : List Row :=
  rows.filter (fun r => decide (r.ts < cutoff))

/-- Rows not matching the filter (timestamp at or after the cutoff). -/
def nonQualifying (cutoff : Int) (rows : List Row) : List Row :=
  rows.filter (fun r => !(decide (r.ts < cutoff)))

/-- Embeds the subquery `SELECT ctid FROM t WHERE col < $1 ORDER BY col
[LIMIT $2]`: the qualifying rows ordered by the timestamp column
ascending, truncated to `batchSize` rows when `batchSize > 0` (the code
appends ` LIMIT $2` and binds `batchSize` only in that case). -/
def selectBatch (cutoff batchSize : Int) (rows : List Row) : List Row :=
  let ordered := List.insertionSort (fun a b => a.ts ≤ b.ts) (qualifying cutoff rows)
  if 0 < batchSize then ordered.take batchSize.toNat else ordered

/-- Embeds one execution of `DELETE FROM t WHERE ctid IN (subquery)`:
every row whose `ctid` is among the selected ones is removed, and the
reported `RowsAffected` is the number of rows removed. -/
def execDelete (cutoff batchSize : Int) (rows : List Row) : List Row × Nat :=
  let ids := (selectBatch cutoff batchSize rows).map Row.ctid
  let remaining := rows.filter (fun r => !(decide (r.ctid ∈ ids)))
  (remaining, rows.length - remaining.length)

/-- Embeds the `for {}` deletion loop of `cmd/main/main.go` (lines
180-224), fuel-indexed so that the definition is structural: each
iteration begins a transaction, executes the delete, commits, records the
batch's `rowsAffected`, and stops when `rowsAffected == 0` or (after a
non-empty batch) when `batchSize == 0`; the result is the final table
contents together with the `rowsAffected` of every committed iteration in
order.  The fuel case `0` is never reached from `runTableLoop`. -/
def runLoopFuel (cutoff batchSize : Int) : Nat → List Row → List Row × List Nat
  | 0, rows => (rows, [])
  | fuel + 1, rows =>
    let step := execDelete cutoff batchSize rows
    if step.2 = 0 then (step.1, [step.2])
    else if batchSize = 0 then (step.1, [step.2])
    else
      let p := runLoopFuel cutoff batchSize fuel step.1
      (p.1, step.2 :: p.2)

/-- The deletion loop for one table, run with enough fuel (one more than
the number of stored rows) for the loop to reach a stopping condition. -/
def runTableLoop (cutoff batchSize : Int) (rows : List Row) : List Row × List Nat :=
  runLoopFuel cutoff batchSize (rows.length + 1) rows

/-- Expected sequence of committed `rowsAffected` values for a table with
`K` qualifying rows and a positive batch bound `B`: `K / B` full batches of
`B` rows, a final partial batch of `K % B` rows when `K` is not a multiple
of `B`, and one terminating zero-row batch. -/
def expectedBatches (K B : Nat) : List Nat :=
  List.replicate (K / B) B ++ (if K % B = 0 then [] else [K % B]) ++ [0]

/-- Embeds the subquery text built at lines 167-176 of `cmd/main/main.go`:
` LIMIT $2` is appended only when `batchSize > 0`. -/
def buildSubquery (tableName timestampColumn : String) (batchSize : Int) : String :=
  let base := "SELECT ctid FROM " ++ tableName ++ " WHERE " ++ timestampColumn ++
    " < $1 ORDER BY " ++ timestampColumn
  if 0 < batchSize then base ++ " LIMIT $2" else base

/-- Embeds the full deletion statement built at line 178. -/
def buildQuery (tableName timestampColumn : String) (batchSize : Int) : String :=
  "DELETE FROM " ++ tableName ++ " WHERE ctid IN (" ++
    buildSubquery tableName timestampColumn batchSize ++ ");"

/-- Embeds the bound-parameter list built at lines 161-165: the cutoff is
always bound as `$1`, and `batchSize` is bound as `$2` only when it is
positive. -/
def buildArgs (cutoff batchSize : Int) : List Int :=
  if 0 < batchSize then [cutoff, batchSize] else [cutoff]

/-- Log line `Deleted %d rows` emitted after a committed non-empty batch. -/
def deletedMsg (n : Nat) : String :=
  "Deleted " ++ toString n ++ " rows"

/-- Log line emitted when a committed batch affected zero rows. -/
def noMoreMsg : String := "No more rows to delete. Exiting."

/-- Per-iteration log output of the deletion loop, one line per committed
batch: the zero-row terminating batch logs the fixed exit message, every
other batch logs only its own `rowsAffected`. -/
def loopLogs (batches : List Nat) : List String :=
  batches.map (fun n => if n = 0 then noMoreMsg else deletedMsg n)

/-- Observable actions of `main`, in program order: the connection
attempt, the startup ping, the construction of the deletion statement for
a spec, one execution of that statement per loop iteration, the
skip of a malformed spec (`continue`), and a fatal exit (`log.Fatal*`). -/
inductive Event where
  | connect : Event
  | ping : Event
  | buildSQL : String → Event
  | execSQL : String → Event
  | skipSpec : String → Event
  | fatalExit : String → Event
deriving DecidableEq, Repr

/-- The database, as the deletion loop observes it: each table name bound
to its stored rows. -/
def DB : Type := List (String × List Row)

/-- Replaces the rows stored under a table name. -/
def dbUpdate (name : String) (rows : List Row) : DB → DB
  | [] => []
  | (n, rs) :: rest =>
    if n = name then (n, rows) :: rest else (n, rs) :: dbUpdate name rows rest

/-- Runs the deletion loop of one parsed spec against the database and
records one `execSQL` event per committed iteration; executing against a
table that does not exist is a query error, which `main` treats as fatal
(`none` stops the run). -/
def tableEvents (db : DB) (tableName : String) (cutoff batchSize : Int)
    (q : String) : Option DB × List Event :=
  match (db : List (String × List Row)).lookup tableName with
  | none => (none, [Event.execSQL q, Event.fatalExit "Failed to execute query"])
  | some rows =>
    let res := runTableLoop cutoff batchSize rows
    (some (dbUpdate tableName res.1 db), res.2.map (fun _ => Event.execSQL q))

/-- Embeds the `for _, table := range tables` loop of `main`: each spec is
parsed with the carried-over `days` value; a malformed spec is skipped; a
parse failure is a fatal exit ending the run; otherwise the deletion
statement is built once and the deletion loop runs before the next spec
starts. -/
def processTables (now batchSize : Int) (db : DB) (prevDays : Int) :
    List String → List Event
  | [] => []
  | t :: rest =>
    match parseTableSpec prevDays t with
    | .skip => Event.skipSpec t :: processTables now batchSize db prevDays rest
    | .fatal m => [Event.fatalExit m]
    | .ok tn tc d =>
      let q := buildQuery tn tc batchSize
      let r := tableEvents db tn (now - d) batchSize q
      Event.buildSQL q ::
        (r.2 ++
          match r.1 with
          | none => []
          | some db2 => processTables now batchSize db2 d rest)

/-- Embeds the observable order of `main` from the connection attempt
onward: `pgx.Connect` and `conn.Ping` happen before the table loop ever
starts, with the function-scoped `days` variable starting at the Go zero
value `0`. -/
def runMain (db : DB) (now batchSize : Int) (tables : List String) : List Event :=
  Event.connect :: Event.ping :: processTables now batchSize db 0 tables

/-! Helper lemmas about filtering, counting, and the delete step. -/

lemma length_filter_add_length_filter_not {α : Type} (p : α → Bool) (l : List α) :
    (l.filter p).length + (l.filter (fun a => !(p a))).length = l.length := by
  induction l with
  | nil => rfl
  | cons x xs ih =>
    cases hpx : p x <;> simp [List.filter_cons, hpx] <;> omega

lemma countP_or_disjoint {α : Type} (p q : α → Bool) (l : List α)
    (h : ∀ a ∈ l, ¬(p a = true ∧ q a = true)) :
    l.countP (fun a => p a || q a) = l.countP p + l.countP q := by
  induction l with
  | nil => rfl
  | cons x xs ih =>
    have hx := h x (List.mem_cons_self x xs)
    have ih' := ih (fun a ha => h a (List.mem_cons_of_mem x ha))
    simp only [List.countP_cons, Bool.or_eq_true, ih']
    cases hp : p x <;> cases hq : q x <;> simp [hp, hq] at hx ⊢ <;> omega

lemma length_filter_mem_ids (l : List Row) (ids : List Nat)
    (hnd : (l.map Row.ctid).Nodup) (hids : ids.Nodup)
    (hsub : ∀ i ∈ ids, i ∈ l.map Row.ctid) :
    (l.filter (fun r => decide (r.ctid ∈ ids))).length = ids.length := by
  induction ids with
  | nil => simp
  | cons i is ih =>
    have hnotmem : i ∉ is := (List.nodup_cons.mp hids).1
    have hdisj : ∀ r ∈ l,
        ¬((decide (r.ctid = i)) = true ∧ (decide (r.ctid ∈ is)) = true) := by
      intro r _ hcon
      obtain ⟨h1, h2⟩ := hcon
      simp only [decide_eq_true_iff] at h1 h2
      exact hnotmem (h1 ▸ h2)
    have hsplit : (fun r : Row => decide (r.ctid ∈ i :: is)) =
        fun r : Row => (decide (r.ctid = i) || decide (r.ctid ∈ is)) := by
      funext r
      simp [List.mem_cons]
    rw [← List.countP_eq_length_filter, hsplit,
      countP_or_disjoint _ _ _ hdisj]
    have h1 : l.countP (fun r => decide (r.ctid = i)) = (l.map Row.ctid).count i := by
      rw [List.count_eq_countP, List.countP_map]
      refine List.countP_congr ?_
      intro r _
      simp [Function.comp]
    rw [h1, List.count_eq_one_of_mem hnd (hsub i (List.mem_cons_self i is)),
      List.countP_eq_length_filter,
      ih (List.nodup_cons.mp hids).2 (fun j hj => hsub j (List.mem_cons_of_mem i hj))]
    simp [Nat.add_comm]

lemma qualifying_sublist (cutoff : Int) (rows : List Row) :
    (qualifying cutoff rows).Sublist rows :=
  List.filter_sublist rows

lemma selectBatch_mem_qualifying {cutoff batchSize : Int} {rows : List Row} {r : Row}
    (h : r ∈ selectBatch cutoff batchSize rows) : r ∈ qualifying cutoff rows := by
  unfold selectBatch at h
  by_cases hB : 0 < batchSize
  · rw [if_pos hB] at h
    exact (List.mem_insertionSort _).mp (List.mem_of_mem_take h)
  · rw [if_neg hB] at h
    exact (List.mem_insertionSort _).mp h

lemma selectBatch_mem_rows {cutoff batchSize : Int} {rows : List Row} {r : Row}
    (h : r ∈ selectBatch cutoff batchSize rows) : r ∈ rows :=
  (qualifying_sublist cutoff rows).mem (selectBatch_mem_qualifying h)

lemma qualifying_nodup_ctid {cutoff : Int} {rows : List Row}
    (hnd : (rows.map Row.ctid).Nodup) :
    ((qualifying cutoff rows).map Row.ctid).Nodup :=
  (((qualifying_sublist cutoff rows).map Row.ctid).nodup hnd)

lemma selectBatch_nodup_ctid {cutoff batchSize : Int} {rows : List Row}
    (hnd : (rows.map Row.ctid).Nodup) :
    ((selectBatch cutoff batchSize rows).map Row.ctid).Nodup := by
  have hsort : ((List.insertionSort (fun a b => a.ts ≤ b.ts)
      (qualifying cutoff rows)).map Row.ctid).Nodup := by
    have hperm := (List.perm_insertionSort (fun a b : Row => a.ts ≤ b.ts)
      (qualifying cutoff rows)).map Row.ctid
    exact hperm.nodup_iff.mpr (qualifying_nodup_ctid hnd)
  unfold selectBatch
  by_cases hB : 0 < batchSize
  · rw [if_pos hB]
    exact ((List.take_sublist _ _).map Row.ctid).nodup hsort
  · rw [if_neg hB]
    exact hsort

lemma length_selectBatch_pos {cutoff batchSize : Int} {rows : List Row}
    (hB : 0 < batchSize) :
    (selectBatch cutoff batchSize rows).length =
      min batchSize.toNat (qualifying cutoff rows).length := by
  unfold selectBatch
  rw [if_pos hB, List.length_take, List.length_insertionSort]

lemma length_selectBatch_nonpos {cutoff batchSize : Int} {rows : List Row}
    (hB : ¬ 0 < batchSize) :
    (selectBatch cutoff batchSize rows).length = (qualifying cutoff rows).length := by
  unfold selectBatch
  rw [if_neg hB, List.length_insertionSort]

lemma mem_selectBatch_nonpos {cutoff batchSize : Int} {rows : List Row} {r : Row}
    (hB : ¬ 0 < batchSize) (h : r ∈ qualifying cutoff rows) :
    r ∈ selectBatch cutoff batchSize rows := by
  unfold selectBatch
  rw [if_neg hB]
  exact (List.mem_insertionSort _).mpr h

lemma execDelete_fst (c B : Int) (rows : List Row) :
    (execDelete c B rows).1 =
      rows.filter (fun r => !(decide (r.ctid ∈ (selectBatch c B rows).map Row.ctid))) := rfl

lemma execDelete_snd_eq (c B : Int) (rows : List Row) :
    (execDelete c B rows).2 = rows.length - (execDelete c B rows).1.length := rfl

lemma selectBatch_ids_sub (c B : Int) (rows : List Row) :
    ∀ i ∈ (selectBatch c B rows).map Row.ctid, i ∈ rows.map Row.ctid := by
  intro i hi
  obtain ⟨s, hs, heq⟩ := List.mem_map.mp hi
  exact List.mem_map.mpr ⟨s, selectBatch_mem_rows hs, heq⟩

lemma matched_length {c B : Int} {rows : List Row}
    (hnd : (rows.map Row.ctid).Nodup) :
    (rows.filter (fun r => decide (r.ctid ∈ (selectBatch c B rows).map Row.ctid))).length
      = (selectBatch c B rows).length := by
  rw [length_filter_mem_ids rows _ hnd (selectBatch_nodup_ctid hnd)
    (selectBatch_ids_sub c B rows), List.length_map]

lemma execDelete_snd {c B : Int} {rows : List Row}
    (hnd : (rows.map Row.ctid).Nodup) :
    (execDelete c B rows).2 = (selectBatch c B rows).length := by
  have hpart := length_filter_add_length_filter_not
    (fun r => decide (r.ctid ∈ (selectBatch c B rows).map Row.ctid)) rows
  have hm := @matched_length c B rows hnd
  rw [execDelete_snd_eq, execDelete_fst]
  omega

lemma notmem_ids_of_nonqual {c B : Int} {rows : List Row} {r : Row}
    (hnd : (rows.map Row.ctid).Nodup) (hr : r ∈ rows) (hts : ¬(r.ts < c)) :
    r.ctid ∉ (selectBatch c B rows).map Row.ctid := by
  intro hmem
  obtain ⟨s, hs, heq⟩ := List.mem_map.mp hmem
  have hsq := selectBatch_mem_qualifying hs
  have hsr := (qualifying_sublist c rows).mem hsq
  have hlt : s.ts < c := by
    have := (List.mem_filter.mp hsq).2
    simpa using this
  have hsrr : s = r := List.inj_on_of_nodup_map hnd hsr hr heq
  exact hts (hsrr ▸ hlt)

lemma nonQualifying_execDelete {c B : Int} {rows : List Row}
    (hnd : (rows.map Row.ctid).Nodup) :
    nonQualifying c (execDelete c B rows).1 = nonQualifying c rows := by
  rw [execDelete_fst]
  unfold nonQualifying
  rw [List.filter_filter]
  refine List.filter_congr ?_
  intro r hr
  cases hts : decide (r.ts < c)
  · simp only [Bool.not_false, Bool.true_and]
    have : r.ctid ∉ (selectBatch c B rows).map Row.ctid :=
      notmem_ids_of_nonqual hnd hr (of_decide_eq_false hts)
    simp [this]
  · simp

lemma execDelete_nodup {c B : Int} {rows : List Row}
    (hnd : (rows.map Row.ctid).Nodup) :
    ((execDelete c B rows).1.map Row.ctid).Nodup := by
  rw [execDelete_fst]
  exact ((List.filter_sublist rows).map Row.ctid).nodup hnd

lemma execDelete_fst_length_le (c B : Int) (rows : List Row) :
    (execDelete c B rows).1.length ≤ rows.length := by
  rw [execDelete_fst]
  exact List.length_filter_le _ rows

lemma execDelete_fst_length_lt {c B : Int} {rows : List Row}
    (h : (execDelete c B rows).2 ≠ 0) :
    (execDelete c B rows).1.length < rows.length := by
  have hle := execDelete_fst_length_le c B rows
  have hsnd := execDelete_snd_eq c B rows
  omega

lemma qualifying_execDelete_length {c B : Int} {rows : List Row}
    (hnd : (rows.map Row.ctid).Nodup) :
    (qualifying c (execDelete c B rows).1).length =
      (qualifying c rows).length - (selectBatch c B rows).length := by
  have hcomm : qualifying c (execDelete c B rows).1 =
      (qualifying c rows).filter
        (fun r => !(decide (r.ctid ∈ (selectBatch c B rows).map Row.ctid))) := by
    rw [execDelete_fst]
    unfold qualifying
    rw [List.filter_filter, List.filter_filter]
    refine List.filter_congr ?_
    intro r _
    exact Bool.and_comm _ _
  have hmatchedQ :
      ((qualifying c rows).filter
        (fun r => decide (r.ctid ∈ (selectBatch c B rows).map Row.ctid))).length
        = (selectBatch c B rows).length := by
    rw [length_filter_mem_ids _ _ (qualifying_nodup_ctid hnd)
      (selectBatch_nodup_ctid hnd) ?_, List.length_map]
    intro i hi
    obtain ⟨s, hs, heq⟩ := List.mem_map.mp hi
    exact List.mem_map.mpr ⟨s, selectBatch_mem_qualifying hs, heq⟩
  have hpart := length_filter_add_length_filter_not
    (fun r => decide (r.ctid ∈ (selectBatch c B rows).map Row.ctid))
    (qualifying c rows)
  rw [hcomm]
  omega

lemma execDelete_nonpos {c B : Int} {rows : List Row}
    (hB : ¬ 0 < B) (hnd : (rows.map Row.ctid).Nodup) :
    execDelete c B rows = (nonQualifying c rows, (qualifying c rows).length) := by
  have hfst : (execDelete c B rows).1 = nonQualifying c rows := by
    rw [execDelete_fst]
    unfold nonQualifying
    refine List.filter_congr ?_
    intro r hr
    cases hts : decide (r.ts < c)
    · have : r.ctid ∉ (selectBatch c B rows).map Row.ctid :=
        notmem_ids_of_nonqual hnd hr (of_decide_eq_false hts)
      simp [this]
    · have hq : r ∈ qualifying c rows := List.mem_filter.mpr ⟨hr, hts⟩
      have : r.ctid ∈ (selectBatch c B rows).map Row.ctid :=
        List.mem_map.mpr ⟨r, mem_selectBatch_nonpos hB hq, rfl⟩
      simp [this]
  have hpart := length_filter_add_length_filter_not
    (fun r => decide (r.ts < c)) rows
  have hsnd := execDelete_snd_eq c B rows
  refine Prod.ext hfst ?_
  simp only
  rw [hsnd, hfst]
  unfold nonQualifying qualifying
  omega

/-! Arithmetic shape of the committed batch sequence. -/

lemma expectedBatches_zero (B : Nat) : expectedBatches 0 B = [0] := by
  unfold expectedBatches
  simp

lemma expectedBatches_step {K B : Nat} (hK : 0 < K) (hB : 0 < B) :
    expectedBatches K B = min B K :: expectedBatches (K - min B K) B := by
  rcases le_or_lt B K with hBK | hKB
  · have hmin : min B K = B := min_eq_left hBK
    have hKeq : K = (K - B) + B := by omega
    have hdiv : K / B = (K - B) / B + 1 := by
      conv_lhs => rw [hKeq]
      exact Nat.add_div_right _ hB
    have hmod : K % B = (K - B) % B := by
      conv_lhs => rw [hKeq]
      exact Nat.add_mod_right _ _
    rw [hmin]
    unfold expectedBatches
    rw [hdiv, hmod, List.replicate_succ]
    simp
  · have hmin : min B K = K := min_eq_right (le_of_lt hKB)
    rw [hmin]
    unfold expectedBatches
    rw [Nat.div_eq_of_lt hKB, Nat.mod_eq_of_lt hKB, if_neg (by omega), Nat.sub_self,
      Nat.zero_div, Nat.zero_mod, if_pos rfl]
    simp

lemma expectedBatches_sum (K B : Nat) : (expectedBatches K B).sum = K := by
  unfold expectedBatches
  by_cases h : K % B = 0
  · rw [if_pos h]
    simp only [List.sum_append, List.sum_replicate, smul_eq_mul, List.sum_nil,
      List.sum_cons, Nat.add_zero]
    exact Nat.div_mul_cancel (Nat.dvd_of_mod_eq_zero h)
  · rw [if_neg h]
    simp only [List.sum_append, List.sum_replicate, smul_eq_mul, List.sum_cons,
      List.sum_nil, Nat.add_zero]
    exact Nat.div_add_mod' K B

lemma ceil_div_split (B : Nat) (hB : 0 < B) (K : Nat) :
    (K + B - 1) / B = K / B + (if K % B = 0 then 0 else 1) := by
  induction K using Nat.strong_induction_on with
  | _ K ih =>
    rcases Nat.eq_zero_or_pos K with hK | hK
    · subst hK
      simp [Nat.div_eq_of_lt (by omega : B - 1 < B)]
    · rcases lt_or_le K B with hKB | hBK
      · have h1 : K + B - 1 = (K - 1) + B := by omega
        rw [h1, Nat.add_div_right _ hB, Nat.div_eq_of_lt (by omega : K - 1 < B),
          Nat.div_eq_of_lt hKB, Nat.mod_eq_of_lt hKB, if_neg (by omega)]
      · have h1 : K + B - 1 = ((K - B) + B - 1) + B := by omega
        have ihKB := ih (K - B) (by omega)
        rw [h1, Nat.add_div_right _ hB, ihKB]
        conv_rhs => rw [(by omega : K = (K - B) + B)]
        rw [Nat.add_div_right _ hB, Nat.add_mod_right]
        by_cases h : (K - B) % B = 0 <;> simp [h]

lemma expectedBatches_filter_pos {K B : Nat} (hB : 0 < B) :
    (expectedBatches K B).filter (fun n => decide (0 < n)) =
      List.replicate (K / B) B ++ (if K % B = 0 then [] else [K % B]) := by
  unfold expectedBatches
  have hrepl : (List.replicate (K / B) B).filter (fun n => decide (0 < n)) =
      List.replicate (K / B) B := by
    induction K / B with
    | zero => rfl
    | succ m ihm =>
      rw [List.replicate_succ, List.filter_cons, if_pos (by simpa using hB),
        ihm]
  rw [List.filter_append, List.filter_append, hrepl]
  by_cases h : K % B = 0
  · rw [if_pos h]
    simp
  · rw [if_neg h]
    simp only [List.filter_cons, List.filter_nil]
    rw [if_pos (by simp; omega)]
    simp

lemma expectedBatches_filter_pos_length {K B : Nat} (hB : 0 < B) :
    ((expectedBatches K B).filter (fun n => decide (0 < n))).length =
      (K + B - 1) / B := by
  rw [expectedBatches_filter_pos hB, ceil_div_split B hB K, List.length_append,
    List.length_replicate]
  by_cases h : K % B = 0 <;> simp [h]

lemma expectedBatches_filter_pos_getLast {K B : Nat} (hB : 0 < B) (hK : 0 < K) :
    ((expectedBatches K B).filter (fun n => decide (0 < n))).getLast? =
      some (if K % B = 0 then B else K % B) := by
  rw [expectedBatches_filter_pos hB]
  by_cases h : K % B = 0
  · rw [if_pos h, if_pos h, List.append_nil]
    have hq : 0 < K / B := by
      rcases lt_or_le K B with hKB | hBK
      · exact absurd (Nat.mod_eq_of_lt hKB ▸ h) (by omega)
      · exact Nat.div_pos hBK hB
    obtain ⟨m, hm⟩ : ∃ m, K / B = m + 1 := ⟨K / B - 1, by omega⟩
    rw [hm, List.replicate_succ', List.getLast?_concat]
  · rw [if_neg h, if_neg h, List.getLast?_concat]

/-! Characterization of the deletion loop. -/

lemma runLoopFuel_succ (c B : Int) (fuel : Nat) (rows : List Row) :
    runLoopFuel c B (fuel + 1) rows =
      if (execDelete c B rows).2 = 0 then
        ((execDelete c B rows).1, [(execDelete c B rows).2])
      else if B = 0 then
        ((execDelete c B rows).1, [(execDelete c B rows).2])
      else
        ((runLoopFuel c B fuel (execDelete c B rows).1).1,
          (execDelete c B rows).2 :: (runLoopFuel c B fuel (execDelete c B rows).1).2) :=
  rfl

lemma qualifying_length_le (c : Int) (rows : List Row) :
    (qualifying c rows).length ≤ rows.length :=
  List.length_filter_le _ rows

lemma nonQualifying_eq_self_of_no_qualifying {c : Int} {rows : List Row}
    (hK : (qualifying c rows).length = 0) : nonQualifying c rows = rows := by
  have hqnil : qualifying c rows = [] := List.length_eq_zero.mp hK
  unfold nonQualifying
  refine List.filter_eq_self.mpr ?_
  intro r hr
  have hnot : r ∉ qualifying c rows := by
    rw [hqnil]
    exact List.not_mem_nil r
  unfold qualifying at hnot
  simp only [List.mem_filter, not_and] at hnot
  simpa using hnot hr

lemma runLoopFuel_pos_eq (c B : Int) (hB : 0 < B) :
    ∀ fuel rows, (rows.map Row.ctid).Nodup → (qualifying c rows).length < fuel →
      runLoopFuel c B fuel rows =
        (nonQualifying c rows, expectedBatches (qualifying c rows).length B.toNat) := by
  intro fuel
  induction fuel with
  | zero =>
    intro rows _ h
    omega
  | succ fuel ih =>
    intro rows hnd hlt
    have hBnat : 0 < B.toNat := by omega
    have hsnd : (execDelete c B rows).2 = min B.toNat (qualifying c rows).length := by
      rw [execDelete_snd hnd, length_selectBatch_pos hB]
    rcases Nat.eq_zero_or_pos (qualifying c rows).length with hK | hK
    · have hzero : (execDelete c B rows).2 = 0 := by
        rw [hsnd, hK]
        simp
      have hsel : selectBatch c B rows = [] := by
        refine List.length_eq_zero.mp ?_
        rw [length_selectBatch_pos hB, hK]
        simp
      have hfst : (execDelete c B rows).1 = rows := by
        rw [execDelete_fst, hsel]
        simp
      rw [runLoopFuel_succ, if_pos hzero, hfst, hzero, hK, expectedBatches_zero,
        nonQualifying_eq_self_of_no_qualifying hK]
    · have hne : (execDelete c B rows).2 ≠ 0 := by
        rw [hsnd]
        omega
      have hqstep : (qualifying c (execDelete c B rows).1).length =
          (qualifying c rows).length - min B.toNat (qualifying c rows).length := by
        rw [qualifying_execDelete_length hnd, length_selectBatch_pos hB]
      have ihstep := ih (execDelete c B rows).1 (execDelete_nodup hnd)
        (by rw [hqstep]; omega)
      rw [runLoopFuel_succ, if_neg hne, if_neg (by omega : ¬ B = 0), ihstep,
        nonQualifying_execDelete hnd, hqstep, hsnd,
        ← expectedBatches_step hK hBnat]

lemma runTableLoop_pos_eq {c B : Int} {rows : List Row}
    (hB : 0 < B) (hnd : (rows.map Row.ctid).Nodup) :
    runTableLoop c B rows =
      (nonQualifying c rows, expectedBatches (qualifying c rows).length B.toNat) := by
  have hq := qualifying_length_le c rows
  exact runLoopFuel_pos_eq c B hB (rows.length + 1) rows hnd (by omega)

lemma runLoopFuel_pos_any {c B : Int} {rows : List Row}
    (hB : 0 < B) (hnd : (rows.map Row.ctid).Nodup) {fuel : Nat}
    (hf : rows.length < fuel) :
    runLoopFuel c B fuel rows = runTableLoop c B rows := by
  have hq := qualifying_length_le c rows
  rw [runTableLoop_pos_eq hB hnd]
  exact runLoopFuel_pos_eq c B hB fuel rows hnd (by omega)

lemma mem_execDelete_fst_of_nonqual {c B : Int} {rows : List Row} {r : Row}
    (hnd : (rows.map Row.ctid).Nodup) (hr : r ∈ rows) (hts : ¬(r.ts < c)) :
    r ∈ (execDelete c B rows).1 := by
  have hmem : r ∈ nonQualifying c rows :=
    List.mem_filter.mpr ⟨hr, by simpa using hts⟩
  rw [← @nonQualifying_execDelete c B rows hnd] at hmem
  exact (List.mem_filter.mp hmem).1

lemma runLoopFuel_preserves (c B : Int) (r : Row) (hts : ¬(r.ts < c)) :
    ∀ fuel rows, (rows.map Row.ctid).Nodup → r ∈ rows →
      r ∈ (runLoopFuel c B fuel rows).1 := by
  intro fuel
  induction fuel with
  | zero =>
    intro rows _ hr
    exact hr
  | succ fuel ih =>
    intro rows hnd hr
    rw [runLoopFuel_succ]
    by_cases h0 : (execDelete c B rows).2 = 0
    · rw [if_pos h0]
      exact mem_execDelete_fst_of_nonqual hnd hr hts
    · rw [if_neg h0]
      by_cases hB0 : B = 0
      · rw [if_pos hB0]
        exact mem_execDelete_fst_of_nonqual hnd hr hts
      · rw [if_neg hB0]
        exact ih _ (execDelete_nodup hnd) (mem_execDelete_fst_of_nonqual hnd hr hts)

lemma runTableLoop_zero_eq {c : Int} {rows : List Row}
    (hnd : (rows.map Row.ctid).Nodup) :
    runTableLoop c 0 rows = (nonQualifying c rows, [(qualifying c rows).length]) := by
  unfold runTableLoop
  have hstep := @execDelete_nonpos c 0 rows (by omega) hnd
  have hsnd : (execDelete c 0 rows).2 = (qualifying c rows).length := by rw [hstep]
  have hfst : (execDelete c 0 rows).1 = nonQualifying c rows := by rw [hstep]
  by_cases hK : (qualifying c rows).length = 0
  · rw [runLoopFuel_succ, if_pos (by rw [hsnd, hK]), hfst, hsnd, hK]
  · rw [runLoopFuel_succ, if_neg (by rw [hsnd]; exact hK), if_pos rfl, hfst, hsnd]

lemma qualifying_nonQualifying (c : Int) (rows : List Row) :
    qualifying c (nonQualifying c rows) = [] := by
  unfold qualifying nonQualifying
  rw [List.filter_filter]
  refine List.filter_eq_nil_iff.mpr ?_
  intro r _
  cases h : decide (r.ts < c) <;> simp [h]

lemma nonQualifying_idem (c : Int) (rows : List Row) :
    nonQualifying c (nonQualifying c rows) = nonQualifying c rows := by
  unfold nonQualifying
  rw [List.filter_filter]
  refine List.filter_congr ?_
  intro r _
  exact Bool.and_self _

lemma nonQualifying_nodup {c : Int} {rows : List Row}
    (hnd : (rows.map Row.ctid).Nodup) :
    ((nonQualifying c rows).map Row.ctid).Nodup :=
  ((List.filter_sublist rows).map Row.ctid).nodup hnd

lemma runTableLoop_neg_eq {c B : Int} {rows : List Row}
    (hB : B < 0) (hnd : (rows.map Row.ctid).Nodup) :
    runTableLoop c B rows =
      (nonQualifying c rows,
        if (qualifying c rows).length = 0 then [0]
        else [(qualifying c rows).length, 0]) := by
  unfold runTableLoop
  have hstep := @execDelete_nonpos c B rows (by omega) hnd
  have hsnd : (execDelete c B rows).2 = (qualifying c rows).length := by rw [hstep]
  have hfst : (execDelete c B rows).1 = nonQualifying c rows := by rw [hstep]
  by_cases hK : (qualifying c rows).length = 0
  · rw [runLoopFuel_succ, if_pos (by rw [hsnd, hK]), hfst, hsnd, hK, if_pos rfl]
  · rw [if_neg hK]
    have hlen : 1 ≤ rows.length := by
      have := qualifying_length_le c rows
      omega
    obtain ⟨m, hm⟩ : ∃ m, rows.length = m + 1 := ⟨rows.length - 1, by omega⟩
    rw [runLoopFuel_succ, if_neg (by rw [hsnd]; exact hK),
      if_neg (by omega : ¬ B = 0), hfst, hsnd, hm, runLoopFuel_succ]
    have hstep2 := @execDelete_nonpos c B (nonQualifying c rows) (by omega)
      (nonQualifying_nodup hnd)
    have hsnd2 : (execDelete c B (nonQualifying c rows)).2 = 0 := by
      rw [hstep2]
      simp [qualifying_nonQualifying]
    have hfst2 : (execDelete c B (nonQualifying c rows)).1 = nonQualifying c rows := by
      rw [hstep2]
      exact nonQualifying_idem c rows
    rw [if_pos hsnd2, hfst2, hsnd2]

lemma expectedBatches_getLast (K B : Nat) :
    (expectedBatches K B).getLast? = some 0 := by
  unfold expectedBatches
  rw [List.getLast?_append, List.getLast?_append]
  simp

/-! Claim theorems. -/

/-- C2: for a table with exactly K qualifying rows (rows whose timestamp is
strictly below the cutoff) and any batch size B > 0, the batch deletion loop
terminates (the fuel bound is immaterial and the loop ends with its zero-row
stopping batch), leaves exactly the non-qualifying rows (so no row is deleted
twice and none is missed), deletes exactly K rows in total across all
committed batches, commits exactly ceil(K/B) non-empty batches, and the final
non-empty batch affects K mod B rows when B does not divide K, and B rows
otherwise. -/
theorem C2_batch_loop_counts (cutoff B : Int) (rows : List Row)
    (hB : 0 < B) (hnd : (rows.map Row.ctid).Nodup) :
    runLoopFuel cutoff B (rows.length + 2) rows = runTableLoop cutoff B rows ∧
    (runTableLoop cutoff B rows).2.getLast? = some 0 ∧
    (runTableLoop cutoff B rows).1 = nonQualifying cutoff rows ∧
    (runTableLoop cutoff B rows).2.sum = (qualifying cutoff rows).length ∧
    ((runTableLoop cutoff B rows).2.filter (fun n => decide (0 < n))).length =
      ((qualifying cutoff rows).length + B.toNat - 1) / B.toNat ∧
    (0 < (qualifying cutoff rows).length →
      ((runTableLoop cutoff B rows).2.filter (fun n => decide (0 < n))).getLast? =
        some (if (qualifying cutoff rows).length % B.toNat = 0 then B.toNat
          else (qualifying cutoff rows).length % B.toNat)) := by
  have hBnat : 0 < B.toNat := by omega
  have heq := @runTableLoop_pos_eq cutoff B rows hB hnd
  refine ⟨runLoopFuel_pos_any hB hnd (by omega), ?_, ?_, ?_, ?_, ?_⟩
  · rw [heq]
    exact expectedBatches_getLast _ _
  · rw [heq]
  · rw [heq]
    exact expectedBatches_sum _ _
  · rw [heq]
    exact expectedBatches_filter_pos_length hBnat
  · intro hK
    rw [heq]
    exact expectedBatches_filter_pos_getLast hBnat hK

/-- C2 witness: a table with 3 qualifying rows and batch size 2 commits
batches of 2, 1, and 0 rows and deletes 3 rows in total. -/
theorem C2_batch_loop_counts_witness :
    (0 : Int) < 2 ∧
    (([⟨0, -3⟩, ⟨1, -2⟩, ⟨2, -1⟩, ⟨3, 5⟩] : List Row).map Row.ctid).Nodup ∧
    (runTableLoop 0 2 [⟨0, -3⟩, ⟨1, -2⟩, ⟨2, -1⟩, ⟨3, 5⟩]).2.sum =
      (qualifying 0 [⟨0, -3⟩, ⟨1, -2⟩, ⟨2, -1⟩, ⟨3, 5⟩]).length :=
  ⟨by decide, by decide,
    (C2_batch_loop_counts 0 2 [⟨0, -3⟩, ⟨1, -2⟩, ⟨2, -1⟩, ⟨3, 5⟩] (by decide)
      (by decide)).2.2.2.1⟩

/-- C4: for every batch size and every table state with distinct physical
row identifiers, a row whose timestamp is at or after the cutoff is still
present after the batch deletion loop finishes: it is never deleted by any
iteration. -/
theorem C4_no_young_row_deleted (cutoff B : Int) (rows : List Row) (r : Row)
    (hnd : (rows.map Row.ctid).Nodup) (hr : r ∈ rows) (hts : cutoff ≤ r.ts) :
    r ∈ (runTableLoop cutoff B rows).1 :=
  runLoopFuel_preserves cutoff B r (by omega) _ rows hnd hr

/-- C4 witness: the row with timestamp 5 survives a full cleanup with
cutoff 0 and batch size 1. -/
theorem C4_no_young_row_deleted_witness :
    (([⟨0, -1⟩, ⟨1, 5⟩] : List Row).map Row.ctid).Nodup ∧
    (⟨1, 5⟩ : Row) ∈ ([⟨0, -1⟩, ⟨1, 5⟩] : List Row) ∧
    (0 : Int) ≤ (5 : Int) ∧
    (⟨1, 5⟩ : Row) ∈ (runTableLoop 0 1 [⟨0, -1⟩, ⟨1, 5⟩]).1 :=
  ⟨by decide, by decide, by decide,
    C4_no_young_row_deleted 0 1 [⟨0, -1⟩, ⟨1, 5⟩] ⟨1, 5⟩ (by decide) (by decide)
      (by decide)⟩

/-- C6: with batch size 0 (unbounded mode) the loop for a table commits
exactly one transaction whose batch deletes all K qualifying rows (leaving
exactly the non-qualifying rows), and stops after that first iteration: the
committed batch list is the singleton [K]. -/
theorem C6_unbounded_single_transaction (cutoff : Int) (rows : List Row)
    (hnd : (rows.map Row.ctid).Nodup) :
    runTableLoop cutoff 0 rows =
      (nonQualifying cutoff rows, [(qualifying cutoff rows).length]) :=
  runTableLoop_zero_eq hnd

/-- C6 witness: with batch size 0 a table with 3 qualifying rows is cleaned
in a single committed batch of 3 rows. -/
theorem C6_unbounded_single_transaction_witness :
    (([⟨0, -3⟩, ⟨1, -2⟩, ⟨2, -1⟩, ⟨3, 5⟩] : List Row).map Row.ctid).Nodup ∧
    runTableLoop 0 0 [⟨0, -3⟩, ⟨1, -2⟩, ⟨2, -1⟩, ⟨3, 5⟩] =
      (nonQualifying 0 [⟨0, -3⟩, ⟨1, -2⟩, ⟨2, -1⟩, ⟨3, 5⟩],
        [(qualifying 0 [⟨0, -3⟩, ⟨1, -2⟩, ⟨2, -1⟩, ⟨3, 5⟩]).length]) :=
  ⟨by decide,
    C6_unbounded_single_transaction 0 [⟨0, -3⟩, ⟨1, -2⟩, ⟨2, -1⟩, ⟨3, 5⟩]
      (by decide)⟩

/-- C9 counterexample: in a run with two committed non-empty batches (running
totals 1 and then 2) the two emitted progress lines are the identical string
"Deleted 1 rows", and the terminating line is the fixed message: no progress
line can therefore contain the running total (1 versus 2 would differ) or the
table name, and no final line reports a per-table total. -/
theorem C9_counterexample :
    (runTableLoop 0 1 [⟨0, -2⟩, ⟨1, -1⟩, ⟨2, 3⟩]).2 = [1, 1, 0] ∧
    loopLogs (runTableLoop 0 1 [⟨0, -2⟩, ⟨1, -1⟩, ⟨2, 3⟩]).2 =
      ["Deleted 1 rows", "Deleted 1 rows", "No more rows to delete. Exiting."] := by
  constructor
  · decide
  · decide

/-- C9 (amended): after each committed batch the loop logs exactly one line
determined by that batch's rows-affected count alone — "Deleted n rows" for a
non-empty batch and the fixed exit message for the terminating zero-row
batch; the whole log of a table's loop is a function of the qualifying-row
count and the batch size only, so it carries no table name and no running
total. -/
theorem C9_progress_logs (cutoff B : Int) (rows : List Row)
    (hB : 0 < B) (hnd : (rows.map Row.ctid).Nodup) :
    loopLogs (runTableLoop cutoff B rows).2 =
      (expectedBatches (qualifying cutoff rows).length B.toNat).map
        (fun n => if n = 0 then noMoreMsg else deletedMsg n) := by
  rw [runTableLoop_pos_eq hB hnd]
  rfl

/-- C9 witness: the log lines of a cleanup of 2 qualifying rows with batch
size 1. -/
theorem C9_progress_logs_witness :
    (0 : Int) < 1 ∧
    (([⟨0, -2⟩, ⟨1, -1⟩, ⟨2, 3⟩] : List Row).map Row.ctid).Nodup ∧
    loopLogs (runTableLoop 0 1 [⟨0, -2⟩, ⟨1, -1⟩, ⟨2, 3⟩]).2 =
      (expectedBatches (qualifying 0 [⟨0, -2⟩, ⟨1, -1⟩, ⟨2, 3⟩]).length
        (1 : Int).toNat).map
        (fun n => if n = 0 then noMoreMsg else deletedMsg n) :=
  ⟨by decide, by decide,
    C9_progress_logs 0 1 [⟨0, -2⟩, ⟨1, -1⟩, ⟨2, 3⟩] (by decide) (by decide)⟩

/-- C10 counterexample: with one qualifying row, batch size -1 commits two
batches (1 row, then the zero-row stopping batch) while batch size 0 commits
exactly one batch; a negative batch size therefore does not behave exactly
like batch size 0 and in particular does not stop the loop after the first
iteration. -/
theorem C10_counterexample :
    (runTableLoop 0 (-1) [⟨0, -1⟩]).2 = [1, 0] ∧
    (runTableLoop 0 0 [⟨0, -1⟩]).2 = [1] := by
  constructor
  · decide
  · decide

/-- C10 (amended): for every negative batch size the deletion statement and
its bound parameters are identical to unbounded mode (no LIMIT clause, no
batch-size parameter), the first iteration deletes all K qualifying rows, and
the loop then stops not unconditionally but through the zero-row check: it
commits [0] when K = 0 and [K, 0] otherwise (one more committed batch than
batch size 0 would). -/
theorem C10_negative_batch (cutoff B : Int) (rows : List Row)
    (tn tc : String) (hB : B < 0) (hnd : (rows.map Row.ctid).Nodup) :
    buildQuery tn tc B = buildQuery tn tc 0 ∧
    buildArgs cutoff B = buildArgs cutoff 0 ∧
    (runTableLoop cutoff B rows).1 = nonQualifying cutoff rows ∧
    (runTableLoop cutoff B rows).2 =
      (if (qualifying cutoff rows).length = 0 then [0]
        else [(qualifying cutoff rows).length, 0]) := by
  refine ⟨?_, ?_, ?_, ?_⟩
  · unfold buildQuery buildSubquery
    rw [if_neg (by omega : ¬ (0 : Int) < B), if_neg (by omega : ¬ (0 : Int) < 0)]
  · unfold buildArgs
    rw [if_neg (by omega : ¬ (0 : Int) < B), if_neg (by omega : ¬ (0 : Int) < 0)]
  · rw [runTableLoop_neg_eq hB hnd]
  · rw [runTableLoop_neg_eq hB hnd]

/-- C10 witness: batch size -1 on one qualifying row builds the unbounded
statement and commits batches [1, 0]. -/
theorem C10_negative_batch_witness :
    (-1 : Int) < 0 ∧
    (([⟨0, -1⟩] : List Row).map Row.ctid).Nodup ∧
    (runTableLoop 0 (-1) [⟨0, -1⟩]).2 =
      (if (qualifying 0 [⟨0, -1⟩]).length = 0 then [0]
        else [(qualifying 0 [⟨0, -1⟩]).length, 0]) :=
  ⟨by decide, by decide,
    (C10_negative_batch 0 (-1) [⟨0, -1⟩] "t" "created_at" (by decide)
      (by decide)).2.2.2⟩

lemma splitOnChar_ne_nil (sep : Char) (cs : List Char) :
    splitOnChar sep cs ≠ [] := by
  induction cs with
  | nil => simp [splitOnChar]
  | cons c rest ih =>
    unfold splitOnChar
    by_cases h : c = sep
    · simp [h]
    · rw [if_neg h]
      rcases hr : splitOnChar sep rest with _ | ⟨g, gs⟩
      · simp
      · simp

/-- C1 counterexample: at the empty string the validator returns true, while
the claim requires it to return false there (non-emptiness is not checked:
the character loop is vacuous). -/
theorem C1_counterexample :
    ¬ (IsValidTableName "" = true ↔
        ("" ≠ "" ∧ ∀ c ∈ "".toList, isTNameChar c = true)) := by
  decide

/-- C1 (amended): the identifier validator accepts a string iff every one of
its characters is an ASCII letter, an ASCII digit, or an underscore — with
no non-emptiness requirement, so the empty string is accepted vacuously;
any string containing a quote, dot, whitespace, or SQL punctuation character
is rejected because such a character is in none of the allowed classes. -/
theorem C1_validator_iff (s : String) :
    IsValidTableName s = true ↔
      ∀ c ∈ s.toList, (('A' ≤ c ∧ c ≤ 'Z') ∨ ('a' ≤ c ∧ c ≤ 'z') ∨
        ('0' ≤ c ∧ c ≤ '9') ∨ c = '_') := by
  unfold IsValidTableName
  simp only [List.all_eq_true, isTNameChar, Bool.or_eq_true, Bool.and_eq_true,
    decide_eq_true_iff]
  constructor <;> intro h c hc <;> have hcc := h c hc <;> tauto

/-- C1 witness: a normal identifier is accepted via the amended rule. -/
theorem C1_validator_iff_witness : IsValidTableName "tbl_1" = true :=
  (C1_validator_iff "tbl_1").mpr (by decide)

/-- C3: evaluation at the failing input: after "a:b:7" has set the
function-scoped days variable to 7, the one-segment spec "t" is parsed with
retentionDays 7 instead of the documented default 0, while the same spec
parsed with a fresh days value 0 yields 0 — the one-segment branch never
resets days, so the previous spec's value leaks. -/
theorem C3_days_leak :
    parseSpecs 0 ["a:b:7", "t"] =
      Except.ok [("a", "b", (7 : Int)), ("t", "created_at", (7 : Int))] ∧
    parseTableSpec 0 "t" = ParseResult.ok "t" "created_at" 0 := by
  constructor
  · rfl
  · rfl

/-- C5 counterexample: the spec "t:c:-1" parses successfully with
retentionDays -1; it is not rejected, contradicting the claim that a
negative retention value is a configuration error. -/
theorem C5_counterexample :
    parseTableSpec 0 "t:c:-1" = ParseResult.ok "t" "c" (-1) := by
  rfl

/-- C5 (amended): the retentionDays segment is parsed with Go strconv.Atoi
and every integer it accepts — negative values included — is used as-is;
only a segment Atoi rejects (empty, non-numeric, or out of the 64-bit
range) is a fatal configuration error. -/
theorem C5_retention_parse (prev : Int) (t c d : String) (v : Int)
    (ht : IsValidTableName t = true) (hc : c ≠ "")
    (hcv : IsValidTableName c = true) (hd : goAtoi d = some v) :
    parseParts prev [t, c, d] = ParseResult.ok t c v ∧
    (∀ e : String, goAtoi e = none →
      parseParts prev [t, c, e] = ParseResult.fatal daysErrMsg) := by
  constructor
  · simp [parseParts, ht, hc, hcv, hd]
  · intro e he
    simp [parseParts, ht, hc, hcv, he]

/-- C5 witness: "t:c:-1" parses to retentionDays -1 through the amended
rule. -/
theorem C5_retention_parse_witness :
    IsValidTableName "t" = true ∧ "c" ≠ "" ∧ IsValidTableName "c" = true ∧
    goAtoi "-1" = some (-1) ∧
    parseParts 0 ["t", "c", "-1"] = ParseResult.ok "t" "c" (-1) :=
  ⟨by decide, by decide, by decide, by decide,
    (C5_retention_parse 0 "t" "c" "-1" (-1) (by decide) (by decide) (by decide)
      (by decide)).1⟩

/-- C7 counterexample: with a valid first spec and the invalid spec
"bad name" second, the run's event trace starts with the connection attempt
and the ping, then builds and executes SQL for the first spec, and only then
hits the fatal configuration error: the error is neither detected before the
connection is made nor before SQL is built and executed. -/
theorem C7_counterexample :
    runMain [("t", [⟨0, -1⟩])] 0 0 ["t", "bad name"] =
      [Event.connect, Event.ping,
        Event.buildSQL (buildQuery "t" "created_at" 0),
        Event.execSQL (buildQuery "t" "created_at" 0),
        Event.fatalExit tableErrMsg] := by
  decide

/-- C7 (amended): an invalid table specification is fatal — the driver emits
only the fatal-exit event for it, builds no SQL for the offending spec, and
processes no later spec — but detection happens inside the per-spec loop:
every run's trace begins with the connection attempt and the ping, and SQL
of earlier valid specs has already been built and executed by the time the
bad spec is reached. -/
theorem C7_config_error_order (now B prev : Int) (db : DB) (bad : String)
    (rest : List String) (m : String)
    (h : parseTableSpec prev bad = ParseResult.fatal m) :
    processTables now B db prev (bad :: rest) = [Event.fatalExit m] ∧
    (∀ db2 : DB, ∀ tables : List String,
      (runMain db2 now B tables).take 2 = [Event.connect, Event.ping]) := by
  constructor
  · unfold processTables
    rw [h]
  · intro db2 tables
    rfl

/-- C7 witness: the spec "bad name" parse-fails and its processing emits
only the fatal exit. -/
theorem C7_config_error_order_witness :
    parseTableSpec 0 "bad name" = ParseResult.fatal tableErrMsg ∧
    processTables 0 0 [] 0 ["bad name"] = [Event.fatalExit tableErrMsg] :=
  ⟨by decide,
    (C7_config_error_order 0 0 0 [] "bad name" [] tableErrMsg (by decide)).1⟩

/-- C8 counterexample: the malformed four-segment spec "a:b:c:d" is skipped
with a log event, and the spec after it is still processed (its SQL is built
and executed); the run does not abort on the malformed spec. -/
theorem C8_counterexample :
    processTables 0 0 [("t", [])] 0 ["a:b:c:d", "t"] =
      [Event.skipSpec "a:b:c:d",
        Event.buildSQL (buildQuery "t" "created_at" 0),
        Event.execSQL (buildQuery "t" "created_at" 0)] := by
  decide

/-- C8 (amended): a spec splitting into more than three segments is not
fatal: parsing yields the skip outcome and the driver logs it and continues
with the remaining specs; a spec can never split into zero segments, since
splitting always yields at least one segment. -/
theorem C8_skip_malformed (prev : Int) (raw : String)
    (h : 3 < (goSplit raw).length) :
    parseTableSpec prev raw = ParseResult.skip ∧
    (∀ now B : Int, ∀ db : DB, ∀ rest : List String,
      processTables now B db prev (raw :: rest) =
        Event.skipSpec raw :: processTables now B db prev rest) ∧
    (∀ s : String, (goSplit s).length ≠ 0) := by
  have hskip : parseTableSpec prev raw = ParseResult.skip := by
    unfold parseTableSpec
    generalize hsp : goSplit raw = parts at h
    rcases parts with _ | ⟨a, _ | ⟨b, _ | ⟨c, _ | ⟨d, e⟩⟩⟩⟩
    · simp at h
    · simp at h
    · simp at h
    · simp at h
    · rfl
  refine ⟨hskip, ?_, ?_⟩
  · intro now B db rest
    conv_lhs => rw [processTables]
    rw [hskip]
  · intro s
    have hne := splitOnChar_ne_nil ':' s.toList
    unfold goSplit
    simp only [List.length_map]
    intro hlen
    exact hne (List.length_eq_zero.mp hlen)

/-- C8 witness: "a:b:c:d" has four segments and is parsed as a skip. -/
theorem C8_skip_malformed_witness :
    3 < (goSplit "a:b:c:d").length ∧
    parseTableSpec 0 "a:b:c:d" = ParseResult.skip :=
  ⟨by decide, (C8_skip_malformed 0 "a:b:c:d" (by decide)).1⟩

end PgMaintenance
